import Mathlib

/-!
# Verification of the differential function comparator

A shallow embedding of `src/diffkemp/simpll/DifferentialFunctionComparator.cpp`:
the comparison functions that override LLVM's structural `FunctionComparator`
with recompilation-aware equivalence rules, together with theorems settling
the specification claims about them.

Modelling conventions:
* LLVM pointer identity of values is modelled by explicit `id` fields; the
  serial-number maps are keyed by these identities (`ValKey`).
* The baseline `FunctionComparator` is an external dependency (spec §2, §6);
  the pieces of it the differential code calls (`cmpValues`, `cmpConstants`,
  `cmpTypes`, `cmpAPInts`, `cmpOperations`, `cmpNumbers`) are modelled from the
  spec's description of the baseline's contract and carry `Base` in their
  names.  Its internal calls to the overridden comparators dispatch virtually,
  so the models re-enter the differential (`...D`) versions, as the C++ does.
* Machine integers are modelled as `Nat`/`Int`; `APInt` values are their
  zero-extended numeric value together with a bit width.
* Code that can fault (a `dyn_cast` result dereferenced without a null check)
  is embedded as `Option`-returning, `none` marking the fault.
-/

/-- `FunctionComparator::cmpNumbers`: three-way comparison of two numbers. -/
def cmpNumbers (a b : Nat) : Int :=
  if a < b then -1 else if a > b then 1 else 0

/-- Distance of two operand counts, as `abs` of the difference of the two
`unsigned` values in the source behaves for realistic counts. -/
def natDist (a b : Nat) : Nat :=
  if a ≥ b then a - b else b - a

/-- LLVM types, as far as the compared code inspects them: integer widths,
named aggregate (struct) types with ordered fields, arrays, pointers, `void`,
block labels and an opaque remainder. -/
inductive Ty where
  | int (width : Nat)
  | struct (name : String) (fields : List Ty)
  | array (len : Nat) (elem : Ty)
  | ptr (pointee : Ty)
  | void
  | label
  | other (id : Nat)

/-- `Type::getTypeID`, with LLVM-like distinct codes per kind. -/
def Ty.typeId : Ty → Nat
  | .void => 0
  | .label => 7
  | .int _ => 11
  | .struct _ _ => 13
  | .array _ _ => 14
  | .ptr _ => 15
  | .other n => 100 + n

def Ty.isIntegerTy : Ty → Bool
  | .int _ => true
  | _ => false

def Ty.isArrayTy : Ty → Bool
  | .array _ _ => true
  | _ => false

def Ty.isStructTy : Ty → Bool
  | .struct _ _ => true
  | _ => false

/-- `StructType::getStructName` (the raw declared name). -/
def Ty.structName : Ty → String
  | .struct n _ => n
  | _ => ""

mutual

/-- `DifferentialFunctionComparator::cmpTypes` (source lines 429–441): under
control-flow-only mode all integer types are equal and arrays are compared by
element type only; everything else goes to the baseline comparator. -/
def cmpTypesD (cfo : Bool) (L R : Ty) : Int :=
  if L.isIntegerTy && R.isIntegerTy && cfo then 0
  else
    match L, R with
    | .array nL eL, .array nR eR =>
        if cfo then cmpTypesD cfo eL eR
        else cmpTypesBase cfo (.array nL eL) (.array nR eR)
    | L, R => cmpTypesBase cfo L R

/-- Modelled from the spec: the baseline `FunctionComparator::cmpTypes`
(external dependency, spec §6) — type id first, then widths for integers,
length and elements for arrays and structs.  Its recursive calls dispatch to
the overriding differential comparator, as the virtual calls do in C++. -/
def cmpTypesBase (cfo : Bool) : Ty → Ty → Int
  | .int wL, .int wR => cmpNumbers wL wR
  | .array nL eL, .array nR eR =>
      if nL ≠ nR then cmpNumbers nL nR else cmpTypesD cfo eL eR
  | .struct _ fL, .struct _ fR =>
      if fL.length ≠ fR.length then cmpNumbers fL.length fR.length
      else cmpTyFields cfo fL fR
  | .ptr _, .ptr _ => 0
  | L, R => cmpNumbers L.typeId R.typeId

/-- Pairwise comparison of struct field types (part of the baseline's struct
case), re-entering the differential comparator as the virtual call does. -/
def cmpTyFields (cfo : Bool) : List Ty → List Ty → Int
  | [], [] => 0
  | [], _ :: _ => -1
  | _ :: _, [] => 1
  | a :: as, b :: bs =>
      let r := cmpTypesD cfo a b
      if r ≠ 0 then r else cmpTyFields cfo as bs

end

/-- An `APInt`: a bit width and the zero-extended numeric value. -/
structure APIntM where
  width : Nat
  value : Nat

/-- Modelled from the spec: the baseline `FunctionComparator::cmpAPInts`
"only accepts equal-width operands" — bit widths first, then the values. -/
def cmpAPIntsBase (L R : APIntM) : Int :=
  if L.width ≠ R.width then cmpNumbers L.width R.width
  else cmpNumbers L.value R.value

/-- `DifferentialFunctionComparator::cmpAPInts` (source lines 444–457): on
baseline inequality under control-flow-only mode, re-compare the zero-extended
values directly, ignoring bit width. -/
def cmpAPIntsD (cfo : Bool) (L R : APIntM) : Int :=
  let result := cmpAPIntsBase L R
  if !cfo || result = 0 then result
  else cmpNumbers L.value R.value

/-- Cast instruction kinds, as far as the compared code distinguishes them
(`isa<BitCastInst>` versus any cast). -/
inductive CastKind where
  | bitcast
  | otherCast (n : Nat)
deriving DecidableEq

/-- An LLVM value as the compared code inspects one: an integer constant, a
basic-block reference, a function argument, the result of a cast instruction
(carrying its pre-cast operand), or the result of any other instruction.
`id` models the pointer identity of the underlying object. -/
inductive Val where
  | constInt (width value : Nat)
  | block (id : Nat)
  | arg (id : Nat) (ty : Ty)
  | instRes (id : Nat) (ty : Ty)
  | castRes (id : Nat) (kind : CastKind) (ty : Ty) (inner : Val)

/-- The identity of a value, the serial-number maps' key (pointer identity in
the C++). -/
inductive ValKey where
  | constant (width value : Nat)
  | blockRef (id : Nat)
  | ssa (id : Nat)
deriving DecidableEq

def Val.key : Val → ValKey
  | .constInt w v => .constant w v
  | .block i => .blockRef i
  | .arg i _ => .ssa i
  | .instRes i _ => .ssa i
  | .castRes i _ _ _ => .ssa i

/-- `Value::getType`. -/
def Val.valTy : Val → Ty
  | .constInt w _ => .int w
  | .block _ => .label
  | .arg _ t => t
  | .instRes _ t => t
  | .castRes _ _ t _ => t

/-- How many cast wrappers a value's representation carries (the measure of
the cast-unwrapping recursion in `cmpValuesD`). -/
def Val.stripDepth : Val → Nat
  | .castRes _ _ _ inner => inner.stripDepth + 1
  | _ => 0

/-- `dyn_cast<CastInst>`: the pre-cast operand when the value is a cast
instruction's result. -/
def Val.castOp? : Val → Option Val
  | .castRes _ _ _ inner => some inner
  | _ => none

theorem Val.stripDepth_of_castOp {L a : Val} (h : L.castOp? = some a) :
    a.stripDepth + 1 = L.stripDepth := by
  cases L <;> simp [Val.castOp?] at h
  subst h
  simp [Val.stripDepth]

/-- `isa<Constant>`: of the modelled values only integer constants are
`Constant`s (blocks, arguments and instruction results are not). -/
def Val.isConstant : Val → Bool
  | .constInt _ _ => true
  | _ => false

/-- `isa<BasicBlock>`. -/
def Val.isBlockRef : Val → Bool
  | .block _ => true
  | _ => false

/-- One side's serial-number map (`sn_mapL` / `sn_mapR`): value identity to the
order of first encounter.  `std::map` size and key lookup are what the
compared code uses. -/
abbrev SnMap := List (ValKey × Nat)

def SnMap.empty : SnMap := []

def SnMap.find? : SnMap → ValKey → Option Nat
  | [], _ => none
  | (k', v) :: rest, k => if k' = k then some v else SnMap.find? rest k

/-- `map.insert({v, map.size()})`: returns the serial already present, or
inserts the next serial.  Mirrors `DenseMap::insert`'s found-or-inserted
result. -/
def SnMap.insertGet (m : SnMap) (k : ValKey) : Nat × SnMap :=
  match m.find? k with
  | some v => (v, m)
  | none => (m.length, m ++ [(k, m.length)])

/-- `map.erase(key)`: removes the entry with the given key. -/
def SnMap.eraseKey : SnMap → ValKey → SnMap
  | [], _ => []
  | (k', v) :: rest, k =>
      if k' = k then rest else (k', v) :: SnMap.eraseKey rest k

/-- `map[key]` (`operator[]`): the mapped serial, value-initialising a fresh
entry when the key is absent (which never happens on the compared paths). -/
def SnMap.bracket (m : SnMap) (k : ValKey) : Nat × SnMap :=
  match m.find? k with
  | some v => (v, m)
  | none => (0, m ++ [(k, 0)])

def SnMap.size (m : SnMap) : Nat := m.length

/-- The two serial-number maps of one comparison run. -/
structure SnMaps where
  left : SnMap
  right : SnMap

/-- The debug-info tables the comparator reads (spec §3), plus the textual
form of a constant.  `structFieldNames` is `DebugInfo::StructFieldNames`
keyed by (aggregate type, field index); `macroConstantMap` is
`DebugInfo::MacroConstantMap`; `valueAsString` is modelled from the spec:
the textual form of the right constant (its implementation lives outside the
given sources). -/
structure DebugInfoM where
  structFieldNames : Ty → Nat → Option String
  macroConstantMap : Val → Option String
  valueAsString : Val → String

/-- Modelled from the spec: the baseline `FunctionComparator::cmpConstants`
(external dependency) — types first (through the overriding differential
comparator, as the virtual call does), then the integer contents via
`cmpAPInts` (likewise overridden). -/
def cmpConstantsM (cfo : Bool) (L R : Val) : Int :=
  match L, R with
  | .constInt wL vL, .constInt wR vR =>
      let tr := cmpTypesD cfo (.int wL) (.int wR)
      if tr ≠ 0 then tr
      else cmpAPIntsD cfo ⟨wL, vL⟩ ⟨wR, vR⟩
  | _, _ => 1

/-- Modelled from the spec: the baseline `FunctionComparator::cmpValues`
(external dependency, spec §2): constants compared by contents, otherwise each
side's value is assigned a position-based serial number on first encounter and
the serial numbers are compared as identity proxies. -/
def cmpValuesBase (cfo : Bool) (L R : Val) (s : SnMaps) : Int × SnMaps :=
  if L.isConstant && R.isConstant then
    if L.key = R.key then (0, s) else (cmpConstantsM cfo L R, s)
  else if L.isConstant then (1, s)
  else if R.isConstant then (-1, s)
  else
    let (snL, mL) := s.left.insertGet L.key
    let (snR, mR) := s.right.insertGet R.key
    (cmpNumbers snL snR, ⟨mL, mR⟩)

/-- The serial-map repair of `cmpValues` (source lines 376–381): when the two
maps' sizes differ, an entry whose serial is the last one of its map is
removed. -/
def repairBlockEntry (L R : Val) (s : SnMaps) : SnMaps :=
  if s.left.size ≠ s.right.size then
    let (kL, mL) := s.left.bracket L.key
    let mL' := if kL = mL.size - 1 then mL.eraseKey L.key else mL
    let (kR, mR) := s.right.bracket R.key
    let mR' := if kR = mR.size - 1 then mR.eraseKey R.key else mR
    ⟨mL', mR'⟩
  else s

/-- The non-cast part of `DifferentialFunctionComparator::cmpValues` (source
lines 359–385): baseline first; on inequality, constants are excused through
the macro-constant map, and basic-block references are excused unconditionally
with the serial-map repair. -/
def cmpValuesCore (cfo : Bool) (dbg : DebugInfoM) (L R : Val) (s : SnMaps) :
    Int × SnMaps :=
  let (result, s1) := cmpValuesBase cfo L R s
  if result ≠ 0 then
    if L.isConstant && R.isConstant then
      match dbg.macroConstantMap L with
      | some txt => if txt = dbg.valueAsString R then (0, s1) else (result, s1)
      | none => (result, s1)
    else if L.isBlockRef && R.isBlockRef then
      (0, repairBlockEntry L R s1)
    else (result, s1)
  else (result, s1)

/-- `DifferentialFunctionComparator::cmpValues` (source lines 336–386): under
control-flow-only mode cast results are unwrapped to their pre-cast operands
first, then the core comparison runs. -/
def cmpValuesD (cfo : Bool) (dbg : DebugInfoM) (L R : Val) (s : SnMaps) :
    Int × SnMaps :=
  if cfo then
    match h1 : L.castOp?, h2 : R.castOp? with
    | some a, some b => cmpValuesD cfo dbg a b s
    | some a, none => cmpValuesD cfo dbg a R s
    | none, some b => cmpValuesD cfo dbg L b s
    | none, none => cmpValuesCore cfo dbg L R s
  else cmpValuesCore cfo dbg L R s
termination_by L.stripDepth + R.stripDepth
decreasing_by
  · have hA := Val.stripDepth_of_castOp h1
    have hB := Val.stripDepth_of_castOp h2
    omega
  · have hA := Val.stripDepth_of_castOp h1
    omega
  · have hB := Val.stripDepth_of_castOp h2
    omega

/-! ## Composite-access (GEP) comparison -/

/-- `CompositeType::getTypeAtIndex`: the sub-type selected by one index.
A struct requires a constant index within bounds; an array ignores the
index's value.  `none` models the `nullptr` result for invalid navigation. -/
def gepTypeAt : Ty → Val → Option Ty
  | .struct _ fields, .constInt _ v => fields.get? v
  | .struct _ _, _ => none
  | .array _ elem, _ => some elem
  | _, _ => none

/-- `GetElementPtrInst::getIndexedType`: an empty index list returns the type
itself; otherwise the first index only steps through the pointer and the
remaining ones navigate the type. -/
def getIndexedType (t : Ty) (idxs : List Val) : Option Ty :=
  match idxs with
  | [] => some t
  | _ :: rest => walk t rest
where
  walk : Ty → List Val → Option Ty
    | t, [] => some t
    | t, i :: is =>
        match gepTypeAt t i with
        | some t' => walk t' is
        | none => none

/-- Modelled from the spec: `getStructTypeName` (in the utilities outside the
given sources) — the declared name of an aggregate type. -/
def getStructTypeName (t : Ty) : String := t.structName

/-- `ConstantInt::getValue().getZExtValue()` of a constant index (the source
guards the `dyn_cast` by `hasAllConstantIndices`). -/
def valToNat : Val → Nat
  | .constInt _ v => v
  | _ => 0

/-- A `GEPOperator`: pointer address space, source element type, the index
operand list, and whether the operator is a `GetElementPtrInst` (a GEP
constant expression is not). -/
structure GEPOp where
  addrSpace : Nat
  srcElemTy : Ty
  indices : List Val
  isInst : Bool

/-- `GEPOperator::hasAllConstantIndices`. -/
def GEPOp.hasAllConstantIndices (g : GEPOp) : Bool :=
  g.indices.all Val.isConstant

/-- The all-constant-indices loop of `cmpGEPs` (source lines 67–111): walk the
index pairs with the accumulated prefixes; an index pair into aggregate
sub-types whose field names resolve equal is accepted, otherwise the pair is
compared by `cmpValues`.  The C++ dereferences the indexed type unchecked;
failed navigation (`none`) lands in the not-a-struct branch, which the
compared inputs never reach with `none`. -/
def gepIdxLoop (cfo : Bool) (dbg : DebugInfoM) (tL tR : Ty) :
    List Val → List Val → List Val → List Val → SnMaps → Int × SnMaps
  | accL, accR, iL :: restL, iR :: restR, s =>
      let vTyL := getIndexedType tL accL
      let vTyR := getIndexedType tR accR
      match vTyL, vTyR with
      | some (.struct nL fL), some (.struct nR fR) =>
          let nameL := dbg.structFieldNames (.struct nL fL) (valToNat iL)
          let nameR := dbg.structFieldNames (.struct nR fR) (valToNat iR)
          if nameL = none ∨ nameR = none ∨ nameL ≠ nameR then
            let (res, s1) := cmpValuesD cfo dbg iL iR s
            if res ≠ 0 then (res, s1)
            else gepIdxLoop cfo dbg tL tR (accL ++ [iL]) (accR ++ [iR]) restL restR s1
          else gepIdxLoop cfo dbg tL tR (accL ++ [iL]) (accR ++ [iR]) restL restR s
      | _, _ =>
          let (res, s1) := cmpValuesD cfo dbg iL iR s
          if res ≠ 0 then (res, s1)
          else gepIdxLoop cfo dbg tL tR (accL ++ [iL]) (accR ++ [iR]) restL restR s1
  | _, _, _, _, s => (0, s)

/-- `DifferentialFunctionComparator::cmpGEPs` (source lines 25–123).  The
baseline `FunctionComparator::cmpGEPs` is an external call whose verdict
enters as `originalResult`. -/
def cmpGEPsD (cfo : Bool) (dbg : DebugInfoM) (originalResult : Int)
    (gL gR : GEPOp) (s : SnMaps) : Int × SnMaps :=
  if originalResult = 0 then (originalResult, s)
  else if ¬(gL.srcElemTy.isStructTy ∧ gR.srcElemTy.isStructTy) then
    (originalResult, s)
  else if getStructTypeName gL.srcElemTy ≠ getStructTypeName gR.srcElemTy then
    (originalResult, s)
  else
    let r1 := cmpNumbers gL.addrSpace gR.addrSpace
    if r1 ≠ 0 then (r1, s)
    else
      let r2 := cmpNumbers gL.indices.length gR.indices.length
      if r2 ≠ 0 then (r2, s)
      else if gL.hasAllConstantIndices ∧ gR.hasAllConstantIndices then
        if ¬(gL.isInst ∧ gR.isInst) then (originalResult, s)
        else gepIdxLoop cfo dbg gL.srcElemTy gR.srcElemTy [] [] gL.indices gR.indices s
      else if gL.indices.length = 1 ∧ gR.indices.length = 1 then
        cmpValuesD cfo dbg (gL.indices.getD 0 (.constInt 0 0))
          (gR.indices.getD 0 (.constInt 0 0)) s
      else (originalResult, s)

/-! ## Allocation, memset and extra-argument call comparison -/

/-- A module layout oracle: `DataLayout::getTypeStoreSize` of the left module
(`LayoutL`), the only layout `cmpStructTypeSizeWithConstant` consults. -/
structure LayoutM where
  storeSize : Ty → Nat

/-- `DifferentialFunctionComparator::cmpStructTypeSizeWithConstant` (source
lines 231–236): 0 iff the constant's zero-extended value equals the type's
store size under the left module's layout.  The source dereferences
`dyn_cast<ConstantInt>(Const)` unchecked; `none` models the fault on a
non-constant. -/
def cmpStructTypeSizeWithConstant (layout : LayoutM) (t : Ty) (c : Val) :
    Option Int :=
  match c with
  | .constInt _ v => some (if v ≠ layout.storeSize t then 1 else 0)
  | _ => none

/-- Modelled from the spec: `getStructType` (in the utilities outside the
given sources) — the named aggregate type a value points to, looking through
a cast's operand when the value itself is not typed as a pointer to an
aggregate. -/
def resolveStructType : Val → Option Ty
  | .castRes _ _ t inner =>
      match t with
      | .ptr (.struct n fs) => some (.struct n fs)
      | _ => resolveStructType inner
  | v =>
      match v.valTy with
      | .ptr (.struct n fs) => some (.struct n fs)
      | _ => none

/-- `isa<BitCastInst>` on an optional next instruction modelled as a value
(`none` = the call is the last instruction; the C++ would fault there, which
the compared inputs never exercise). -/
def isBitCastVal : Option Val → Bool
  | some (.castRes _ .bitcast _ _) => true
  | _ => false

/-- A call instruction's data as the special-case comparators read it:
the operand list (arguments then the called-function slot), the call's result
type, and the following instruction (`getNextNode`) as a value. -/
structure CallInstM where
  operands : List Val
  ty : Ty
  next : Option Val

/-- `CallInst::getNumOperands`. -/
def CallInstM.numOperands (c : CallInstM) : Nat := c.operands.length

/-- `CallInst::getOperand`. -/
def CallInstM.getOperand (c : CallInstM) (i : Nat) : Val :=
  c.operands.getD i (.constInt 0 0)

/-- `CallInst::getNumArgOperands` (operands minus the called-function slot). -/
def CallInstM.numArgOperands (c : CallInstM) : Nat := c.operands.length - 1

/-- The aggregate type the instruction following the call casts to. -/
def CallInstM.nextStructType (c : CallInstM) : Option Ty :=
  c.next.bind resolveStructType

/-- `DifferentialFunctionComparator::cmpAllocs` (source lines 240–270): equal
sizes are equal calls; otherwise both calls must be followed by a bitcast,
have constant sizes, cast to aggregates of one declared name, and each
constant must equal its own aggregate's store size.  `none` marks the
source's unguarded dereferences (never reached: the constant check guards
the size helper here). -/
def cmpAllocsD (cfo : Bool) (dbg : DebugInfoM) (layout : LayoutM)
    (cL cR : CallInstM) (s : SnMaps) : Option (Int × SnMaps) :=
  let (r0, s0) := cmpValuesD cfo dbg (cL.getOperand 0) (cR.getOperand 0) s
  if r0 = 0 then some (0, s0)
  else if ¬(isBitCastVal cL.next ∧ isBitCastVal cR.next) then some (1, s0)
  else if ¬((cL.getOperand 0).isConstant ∧ (cR.getOperand 0).isConstant) then
    some (1, s0)
  else
    match cL.nextStructType, cR.nextStructType with
    | some tyL, some tyR => do
        let c1 ← cmpStructTypeSizeWithConstant layout tyL (cL.getOperand 0)
        if c1 ≠ 0 then some (1, s0)
        else do
          let c2 ← cmpStructTypeSizeWithConstant layout tyR (cR.getOperand 0)
          if c2 ≠ 0 then some (1, s0)
          else some (if tyL.structName ≠ tyR.structName then 1 else 0, s0)
    | _, _ => some (1, s0)

/-- The argument loop of `cmpMemset` (source lines 465–470): every argument
except the third is compared by value, in order, with the first inequality
returned. -/
def memsetArgLoop (cfo : Bool) (dbg : DebugInfoM) (cL cR : CallInstM) :
    Nat → Nat → SnMaps → Int × SnMaps
  | _, 0, s => (0, s)
  | i, fuel + 1, s =>
      if i = 2 then memsetArgLoop cfo dbg cL cR (i + 1) fuel s
      else
        let (res, s1) := cmpValuesD cfo dbg (cL.getOperand i) (cR.getOperand i) s
        if res ≠ 0 then (res, s1)
        else memsetArgLoop cfo dbg cL cR (i + 1) fuel s1

/-- `DifferentialFunctionComparator::cmpMemset` (source lines 462–485):
non-size arguments pairwise, then the size arguments directly; failing that,
both destinations must resolve to aggregates of one declared name and each
size must equal its own aggregate's store size.  The size helper's `none`
(a non-constant size argument) propagates: the source faults there. -/
def cmpMemsetD (cfo : Bool) (dbg : DebugInfoM) (layout : LayoutM)
    (cL cR : CallInstM) (s : SnMaps) : Option (Int × SnMaps) :=
  let (r0, s0) := memsetArgLoop cfo dbg cL cR 0 cL.numArgOperands s
  if r0 ≠ 0 then some (r0, s0)
  else
    let (r2, s2) := cmpValuesD cfo dbg (cL.getOperand 2) (cR.getOperand 2) s0
    if r2 = 0 then some (0, s2)
    else
      match resolveStructType (cL.getOperand 0), resolveStructType (cR.getOperand 0) with
      | some tyL, some tyR => do
          let c1 ← cmpStructTypeSizeWithConstant layout tyL (cL.getOperand 2)
          if c1 ≠ 0 then some (1, s2)
          else do
            let c2 ← cmpStructTypeSizeWithConstant layout tyR (cR.getOperand 2)
            if c2 ≠ 0 then some (1, s2)
            else some (if tyL.structName ≠ tyR.structName then 1 else 0, s2)
      | _, _ => some (1, s2)

/-- The argument loop of `cmpCallsWithExtraArg` (source lines 414–421): each
argument pair except the trailing called-function slot, compared by type and
then by value. -/
def extraArgLoop (cfo : Bool) (dbg : DebugInfoM) :
    List (Val × Val) → SnMaps → Int × SnMaps
  | [], s => (0, s)
  | (a, b) :: rest, s =>
      let rt := cmpTypesD cfo a.valTy b.valTy
      if rt ≠ 0 then (rt, s)
      else
        let (rv, s1) := cmpValuesD cfo dbg a b s
        if rv ≠ 0 then (rv, s1)
        else extraArgLoop cfo dbg rest s1

/-- `Constant::isNullValue() || Constant::isZeroValue()` for the modelled
constants (integer constants): the value is zero. -/
def isZeroConst : Val → Bool
  | .constInt _ v => v = 0
  | _ => false

/-- `DifferentialFunctionComparator::cmpCallsWithExtraArg` (source lines
388–425): the longer call's penultimate operand must be a constant zero/null;
then result types, then each argument pair except the trailing
called-function slot. -/
def cmpCallsWithExtraArgD (cfo : Bool) (dbg : DebugInfoM)
    (cL cR : CallInstM) (s : SnMaps) : Int × SnMaps :=
  let ce := if cL.numOperands > cR.numOperands then cL else cR
  let co := if cL.numOperands > cR.numOperands then cR else cL
  let lastOp := ce.getOperand (ce.numOperands - 2)
  if lastOp.isConstant then
    if ¬isZeroConst lastOp then (1, s)
    else
      let rt := cmpTypesD cfo ce.ty co.ty
      if rt ≠ 0 then (rt, s)
      else extraArgLoop cfo dbg ((ce.operands.zip co.operands).take (co.numOperands - 1)) s
  else (1, s)

/-! ## Operations and basic blocks -/

/-- A called function, as the comparator inspects it: name, whether it is an
external declaration, whether it is a recognized allocation function
(`isAllocFunction`, modelled from the spec as a recognizer flag), and whether
it is the memset intrinsic. -/
structure CalleeM where
  name : String
  isDeclaration : Bool
  isAlloc : Bool
  isMemset : Bool

/-- Instruction kinds, as far as the compared code distinguishes them.
`call` carries `getCalledFunction`'s result (`none` = indirect call). -/
inductive Opcode where
  | ret
  | br
  | alloca (allocatedTy : Ty) (align : Nat)
  | load
  | store
  | icmp (pred : Nat)
  | call (callee : Option CalleeM)
  | cast (kind : CastKind)
  | other (code : Nat)

/-- `Instruction::getOpcode`, with distinct codes per kind (cast kinds are
distinct opcodes in LLVM). -/
def Opcode.num : Opcode → Nat
  | .ret => 1
  | .br => 2
  | .alloca _ _ => 31
  | .load => 32
  | .store => 33
  | .icmp _ => 53
  | .call _ => 56
  | .cast .bitcast => 60
  | .cast (.otherCast n) => 61 + n
  | .other code => 200 + code

/-- An instruction: identity, kind, operand list, result type, and the next
instruction in its block (`getNextNode`), as a value. -/
structure Instr where
  id : Nat
  op : Opcode
  operands : List Val
  ty : Ty
  next : Option Val := none

/-- The instruction's own result as a value (what `cmpValues` receives when
the instructions themselves are compared, and what the serial-map erasures
key on). -/
def Instr.toVal (i : Instr) : Val :=
  match i.op with
  | .cast k => .castRes i.id k i.ty (i.operands.getD 0 (.constInt 0 0))
  | _ => .instRes i.id i.ty

/-- The call-instruction view of an instruction. -/
def Instr.toCall (i : Instr) : CallInstM :=
  ⟨i.operands, i.ty, i.next⟩

def Instr.isCall (i : Instr) : Bool :=
  match i.op with
  | .call _ => true
  | _ => false

/-- `CallInst::getCalledFunction` (meaningful on call instructions). -/
def Instr.calleeOf (i : Instr) : Option CalleeM :=
  match i.op with
  | .call c => c
  | _ => none

/-- `mayIgnore` (source lines 273–275): stack allocations and casts are
ignorable. -/
def mayIgnore (i : Instr) : Bool :=
  match i.op with
  | .alloca _ _ => true
  | .cast _ => true
  | _ => false

/-- `ICmpInst::getUnsignedPredicate`: signed predicate codes (38–41) map to
their unsigned counterparts (34–37); others are unchanged. -/
def unsignedPred (p : Nat) : Nat :=
  if 38 ≤ p ∧ p ≤ 41 then p - 4 else p

/-- The transient state of one comparison attempt: the serial-number maps and
the orchestrator's inline-request slot (`ModuleComparator::tryInline`). -/
structure CmpState where
  maps : SnMaps
  tryInline : Option CalleeM := none

/-- Modelled from the spec: the baseline `FunctionComparator::cmpOperations`
(external dependency) — the instructions themselves as values first (which
registers their serial numbers), then opcode, operand count, result type and
the modelled per-opcode data.  The value and type comparisons dispatch
virtually to the differential versions, as in C++. -/
def cmpOperationsBase (cfo : Bool) (dbg : DebugInfoM) (L R : Instr)
    (s : SnMaps) : Int × Bool × SnMaps :=
  let (r0, s0) := cmpValuesD cfo dbg L.toVal R.toVal s
  if r0 ≠ 0 then (r0, true, s0)
  else if L.op.num ≠ R.op.num then (cmpNumbers L.op.num R.op.num, true, s0)
  else if L.operands.length ≠ R.operands.length then
    (cmpNumbers L.operands.length R.operands.length, true, s0)
  else
    let rt := cmpTypesD cfo L.ty R.ty
    if rt ≠ 0 then (rt, true, s0)
    else
      match L.op, R.op with
      | .alloca tyL aL, .alloca tyR aR =>
          let ra := cmpTypesD cfo tyL tyR
          if ra ≠ 0 then (ra, true, s0) else (cmpNumbers aL aR, true, s0)
      | .icmp pL, .icmp pR => (cmpNumbers pL pR, true, s0)
      | _, _ => (0, true, s0)

/-- The tail of `cmpOperations` (source lines 203–225): on inequality,
integer comparisons with one unsigned predicate are equal under
control-flow-only mode, and stack allocations of same-named aggregates are
compared by alignment alone. -/
def opResultTail (cfo : Bool) (L R : Instr) (result : Int) : Int :=
  if result ≠ 0 then
    match L.op, R.op with
    | .icmp pL, .icmp pR =>
        if cfo ∧ unsignedPred pL = unsignedPred pR then 0 else result
    | .alloca (.struct nL fL) aL, .alloca (.struct nR fR) aR =>
        if (Ty.struct nL fL).structName = (Ty.struct nR fR).structName then
          cmpNumbers aL aR
        else result
    | _, _ => result
  else result

/-- `DifferentialFunctionComparator::cmpOperations` (source lines 151–227):
the baseline verdict, then the call special cases (allocation sizes, memset
sizes, extra-argument calls, inline requests), then the inequality tail.
`none` models the unguarded dereference of `getCalledFunction()` on a
one-sided indirect call (and a fault inside `cmpMemset`). -/
def cmpOperationsD (cfo : Bool) (dbg : DebugInfoM) (layout : LayoutM)
    (L R : Instr) (st : CmpState) : Option (Int × Bool × CmpState) :=
  let (result, ntco, m0) := cmpOperationsBase cfo dbg L R st.maps
  let st0 : CmpState := { st with maps := m0 }
  let finish : CmpState → Int × Bool × CmpState := fun stF =>
    (opResultTail cfo L R result, ntco, stF)
  if L.isCall || R.isCall then
    if L.isCall && R.isCall then
      match L.calleeOf, R.calleeOf with
      | some fL, some fR =>
          if fL.name = fR.name then
            let extraStage : CmpState → Option (Int × Bool × CmpState) := fun st2 =>
              if result ≠ 0 ∧ cfo ∧ natDist L.operands.length R.operands.length = 1 then
                let (rc, m3) := cmpCallsWithExtraArgD cfo dbg L.toCall R.toCall st2.maps
                some (rc, false, { st2 with maps := m3 })
              else
                let st3 := if result ≠ 0 ∧ ¬fL.isDeclaration then
                  { st2 with tryInline := some fL } else st2
                some (finish st3)
            let memsetStage : CmpState → Option (Int × Bool × CmpState) := fun st1 =>
              if fL.isMemset ∧ fR.isMemset then
                match cmpMemsetD cfo dbg layout L.toCall R.toCall st1.maps with
                | none => none
                | some (rm, m2) =>
                    let st2 : CmpState := { st1 with maps := m2 }
                    if rm = 0 then some (0, false, st2) else extraStage st2
              else extraStage st1
            if fL.isAlloc then
              match cmpAllocsD cfo dbg layout L.toCall R.toCall st0.maps with
              | none => none
              | some (ra, m1) =>
                  let st1 : CmpState := { st0 with maps := m1 }
                  if ra = 0 then some (0, false, st1) else memsetStage st1
            else memsetStage st0
          else some (finish st0)
      | _, _ => some (finish st0)
    else
      match (if L.isCall then L else R).calleeOf with
      | none => none
      | some f =>
          let st1 := if ¬f.isDeclaration then { st0 with tryInline := some f }
            else st0
          some (finish st1)
  else some (finish st0)

/-- The operand loop of `cmpBasicBlocks` (source lines 310–317). -/
def operandLoop (cfo : Bool) (dbg : DebugInfoM) :
    List (Val × Val) → SnMaps → Int × SnMaps
  | [], s => (0, s)
  | (a, b) :: rest, s =>
      let (r, s1) := cmpValuesD cfo dbg a b s
      if r ≠ 0 then (r, s1) else operandLoop cfo dbg rest s1

/-- `DifferentialFunctionComparator::cmpBasicBlocks` (source lines 280–329):
lock-step walk; on inequality under control-flow-only mode an ignorable
instruction is dropped from both serial maps and its side's cursor advances
alone; once operations match, operands are compared pairwise; leftover
instructions decide the order.  (LLVM blocks are never empty; the list model
extends the post-loop verdicts to the empty cases.) -/
def cmpBasicBlocksD (cfo : Bool) (dbg : DebugInfoM) (layout : LayoutM) :
    List Instr → List Instr → CmpState → Option (Int × CmpState)
  | iL :: ls, iR :: rs, st =>
      match cmpOperationsD cfo dbg layout iL iR st with
      | none => none
      | some (res, ntco, st1) =>
          if res ≠ 0 then
            if cfo ∧ (mayIgnore iL ∨ mayIgnore iR) then
              let st2 : CmpState := { st1 with maps :=
                ⟨st1.maps.left.eraseKey iL.toVal.key,
                 st1.maps.right.eraseKey iR.toVal.key⟩ }
              if mayIgnore iL then cmpBasicBlocksD cfo dbg layout ls (iR :: rs) st2
              else cmpBasicBlocksD cfo dbg layout (iL :: ls) rs st2
            else some (res, st1)
          else
            if ntco then
              let (ro, m2) := operandLoop cfo dbg (iL.operands.zip iR.operands) st1.maps
              let st2 : CmpState := { st1 with maps := m2 }
              if ro ≠ 0 then some (ro, st2)
              else cmpBasicBlocksD cfo dbg layout ls rs st2
            else cmpBasicBlocksD cfo dbg layout ls rs st1
  | _ :: _, [], st => some (1, st)
  | [], _ :: _, st => some (-1, st)
  | [], [], st => some (0, st)
termination_by L R _ => L.length + R.length
decreasing_by all_goals (simp only [List.length_cons]; omega)

/-! ## Claim-side checkers and concrete scenarios -/

/-- Both indices are the same constant (same width and value). -/
def constIdxEq : Val → Val → Bool
  | .constInt w1 v1, .constInt w2 v2 => w1 = w2 && v1 = v2
  | _, _ => false

/-- The claim's acceptance condition on a pair of all-constant index
sequences: at every position, either the indexed sub-types are aggregates
whose field names resolve to one name, or the indices agree positionally. -/
def gepIndicesOk (dbg : DebugInfoM) (tL tR : Ty) :
    List Val → List Val → List Val → List Val → Bool
  | accL, accR, iL :: restL, iR :: restR =>
      (match getIndexedType tL accL, getIndexedType tR accR with
       | some (.struct nL fL), some (.struct nR fR) =>
           (match dbg.structFieldNames (.struct nL fL) (valToNat iL),
                  dbg.structFieldNames (.struct nR fR) (valToNat iR) with
            | some a, some b => if a = b then true else constIdxEq iL iR
            | _, _ => constIdxEq iL iR)
       | _, _ => constIdxEq iL iR)
      && gepIndicesOk dbg tL tR (accL ++ [iL]) (accR ++ [iR]) restL restR
  | _, _, [], [] => true
  | _, _, _, _ => false

/-- The claim's reading of the extra-argument call comparison: every
argument pair compares equal by type and then by value, with the serial
maps threaded through. -/
def pairsTypeValEq (cfo : Bool) (dbg : DebugInfoM) :
    List (Val × Val) → SnMaps → Prop
  | [], _ => True
  | (a, b) :: rest, s =>
      cmpTypesD cfo a.valTy b.valTy = 0 ∧
      (cmpValuesD cfo dbg a b s).1 = 0 ∧
      pairsTypeValEq cfo dbg rest (cmpValuesD cfo dbg a b s).2

/-- Debug info with empty tables. -/
def noDebugInfo : DebugInfoM := ⟨fun _ _ => none, fun _ => none, fun _ => ""⟩

/-- A trivial layout oracle. -/
def noLayout : LayoutM := ⟨fun _ => 0⟩

/-- The empty comparison state. -/
def initState : CmpState := ⟨⟨[], []⟩, none⟩

/-- Debug info recording that the left constant `5 : i32` originated from
macro text that is also the textual form of the right constant `7 : i32`. -/
def dbgFlagX : DebugInfoM :=
  ⟨fun _ _ => none,
   fun v => match v with | .constInt 32 5 => some "FLAG_X" | _ => none,
   fun v => match v with | .constInt 32 7 => "FLAG_X" | _ => ""⟩

/-- `alloca i32` (the extra housekeeping instruction of the skip scenario). -/
def allocaIns : Instr := ⟨0, .alloca (.int 32) 4, [.constInt 32 1], .ptr (.int 32), none⟩

/-- `store i32 7, i32* %p` on the left. -/
def storeInsL : Instr := ⟨1, .store, [.constInt 32 7, .arg 5 (.ptr (.int 32))], .void, none⟩

/-- `ret void` on the left. -/
def retInsL : Instr := ⟨2, .ret, [], .void, none⟩

/-- `store i32 7, i32* %q` on the right. -/
def storeInsR : Instr := ⟨3, .store, [.constInt 32 7, .arg 6 (.ptr (.int 32))], .void, none⟩

/-- `ret void` on the right. -/
def retInsR : Instr := ⟨4, .ret, [], .void, none⟩

/-- A layout under which the left version of aggregate `T` stores 24 bytes
and the right version 32 bytes. -/
def layT : LayoutM :=
  ⟨fun t => match t with
    | .struct _ [.int 8] => 24
    | .struct _ [.int 16] => 32
    | _ => 0⟩

/-- An allocation call of constant size 24 immediately bitcast to a pointer
to the left version of `T`. -/
def allocCallL : CallInstM :=
  ⟨[.constInt 64 24, .instRes 90 .void], .ptr (.int 8),
   some (.castRes 100 .bitcast (.ptr (.struct "struct.T" [.int 8]))
     (.instRes 91 (.ptr (.int 8))))⟩

/-- An allocation call of constant size 32 immediately bitcast to a pointer
to the right version of `T`. -/
def allocCallR : CallInstM :=
  ⟨[.constInt 64 32, .instRes 92 .void], .ptr (.int 8),
   some (.castRes 101 .bitcast (.ptr (.struct "struct.T" [.int 16]))
     (.instRes 93 (.ptr (.int 8))))⟩

/-- A memset whose destination resolves to aggregate `s` but whose size
argument is a runtime value (not a compile-time constant). -/
def memsetCallL : CallInstM :=
  ⟨[.instRes 10 (.ptr (.struct "s" [.int 8])), .constInt 8 0,
    .instRes 11 (.int 64), .instRes 99 .void], .void, none⟩

/-- A memset with the same destination aggregate and a constant size 64. -/
def memsetCallR : CallInstM :=
  ⟨[.instRes 20 (.ptr (.struct "s" [.int 8])), .constInt 8 0,
    .constInt 64 64, .instRes 98 .void], .void, none⟩

/-- `memsetCallL` with a destination that does not resolve to an aggregate. -/
def memsetCallL' : CallInstM :=
  ⟨[.instRes 10 (.ptr (.int 8)), .constInt 8 0,
    .instRes 11 (.int 64), .instRes 99 .void], .void, none⟩

/-- `memsetCallR` with a destination that does not resolve to an aggregate. -/
def memsetCallR' : CallInstM :=
  ⟨[.instRes 20 (.ptr (.int 8)), .constInt 8 0,
    .constInt 64 64, .instRes 98 .void], .void, none⟩

/-- The left version of aggregate `S`: field `fieldA` sits at index 1. -/
def structSLeft : Ty := .struct "struct.S" [.int 32, .int 64, .int 8]

/-- The right version of aggregate `S`: field `fieldA` sits at index 2. -/
def structSRight : Ty := .struct "struct.S" [.int 32, .int 8, .int 64]

/-- Field names for the two versions of `S`: index 1 on the left and index 2
on the right both carry the declared name `fieldA`. -/
def dbgStructS : DebugInfoM :=
  ⟨fun t i => match t, i with
    | .struct "struct.S" [.int 32, .int 64, .int 8], 1 => some "fieldA"
    | .struct "struct.S" [.int 32, .int 8, .int 64], 2 => some "fieldA"
    | _, _ => none,
   fun _ => none, fun _ => ""⟩

/-- The member access `S[0].fieldA` in the left module (numeric indices 0, 1). -/
def gepSLeft : GEPOp := ⟨0, structSLeft, [.constInt 32 0, .constInt 32 1], true⟩

/-- The member access `S[0].fieldA` in the right module (numeric indices 0, 2). -/
def gepSRight : GEPOp := ⟨0, structSRight, [.constInt 32 0, .constInt 32 2], true⟩

/-- `f(a, b, false)`: the call with the extra trailing constant-zero argument
(last operand slot is the called function). -/
def extraArgCall : CallInstM :=
  ⟨[.arg 1 (.int 32), .arg 2 (.int 32), .constInt 1 0, .instRes 80 .void],
   .int 32, none⟩

/-- `f(a, b)`: the shorter call. -/
def shorterCall : CallInstM :=
  ⟨[.arg 3 (.int 32), .arg 4 (.int 32), .instRes 81 .void], .int 32, none⟩

/-! ## Helper lemmas -/

theorem cmpNumbers_self (a : Nat) : cmpNumbers a a = 0 := by
  simp [cmpNumbers]

theorem cmpNumbers_eq_zero {a b : Nat} : cmpNumbers a b = 0 ↔ a = b := by
  unfold cmpNumbers
  split
  · omega
  · split <;> omega

theorem cmpValuesD_eq_core {L R : Val} (hL : L.castOp? = none)
    (hR : R.castOp? = none) (cfo : Bool) (dbg : DebugInfoM) (s : SnMaps) :
    cmpValuesD cfo dbg L R s = cmpValuesCore cfo dbg L R s := by
  rw [cmpValuesD]
  cases cfo
  · simp
  · simp only [if_true]
    split <;> simp_all

theorem cmpNumbers_ne {a b : Nat} (h : a ≠ b) : cmpNumbers a b ≠ 0 := by
  simp [cmpNumbers_eq_zero, h]

theorem cmpTypesD_int_int (cfo : Bool) (w1 w2 : Nat) :
    cmpTypesD cfo (.int w1) (.int w2) = if cfo then 0 else cmpNumbers w1 w2 := by
  cases cfo <;> simp [cmpTypesD, cmpTypesBase, Ty.isIntegerTy]

theorem cmpAPIntsD_same_width {cfo : Bool} {w v1 v2 : Nat} (h : v1 ≠ v2) :
    cmpAPIntsD cfo ⟨w, v1⟩ ⟨w, v2⟩ ≠ 0 := by
  cases cfo <;> simp [cmpAPIntsD, cmpAPIntsBase, cmpNumbers_ne h]

theorem cmpConstantsM_same_width {cfo : Bool} {w v1 v2 : Nat} (h : v1 ≠ v2) :
    cmpConstantsM cfo (.constInt w v1) (.constInt w v2) ≠ 0 := by
  simp [cmpConstantsM, cmpTypesD_int_int]
  cases cfo <;> simp [cmpNumbers_self, cmpAPIntsD_same_width h]

theorem cmpValuesD_const_self (cfo : Bool) (dbg : DebugInfoM) (w v : Nat)
    (s : SnMaps) : cmpValuesD cfo dbg (.constInt w v) (.constInt w v) s = (0, s) := by
  rw [cmpValuesD_eq_core (by simp [Val.castOp?]) (by simp [Val.castOp?])]
  simp [cmpValuesCore, cmpValuesBase, Val.isConstant, Val.key]

theorem cmpValuesD_const_ne {cfo : Bool} {dbg : DebugInfoM} {w v1 v2 : Nat}
    {s : SnMaps} (h : v1 ≠ v2)
    (hmac : dbg.macroConstantMap (.constInt w v1) = none) :
    cmpValuesD cfo dbg (.constInt w v1) (.constInt w v2) s =
      (cmpConstantsM cfo (.constInt w v1) (.constInt w v2), s) := by
  rw [cmpValuesD_eq_core (by simp [Val.castOp?]) (by simp [Val.castOp?])]
  simp [cmpValuesCore, cmpValuesBase, Val.isConstant, Val.key, h, hmac,
    cmpConstantsM_same_width h]

/-! ## Claim theorems -/

/-- C4: for every pair of operands that are both basic-block references, the
value comparator returns equal, unconditionally — whatever the mode, the
debug info, and the serial-map state (so also when the baseline's
serial-number comparison reports them unequal). -/
theorem claim_C4_blockRefs_always_equal (cfo : Bool) (dbg : DebugInfoM)
    (i j : Nat) (s : SnMaps) :
    (cmpValuesD cfo dbg (.block i) (.block j) s).1 = 0 := by
  rw [cmpValuesD_eq_core (by simp [Val.castOp?]) (by simp [Val.castOp?])]
  unfold cmpValuesCore cmpValuesBase
  simp only [Val.isConstant, Val.isBlockRef, Bool.and_self, Bool.false_and,
    Bool.and_false, if_false, ite_false, Bool.true_and, Bool.and_true]
  split
  · simp_all
  · split <;> simp_all

/-- C9: under control-flow-only mode, integer constants with one
zero-extended value compare equal at any widths (both at the `cmpAPInts`
level and through the value comparator); outside that mode the 8-bit and
32-bit constants 3 compare unequal, the integer types themselves differing. -/
theorem claim_C9_cfo_integer_relaxation :
    (∀ w1 w2 v : Nat, cmpAPIntsD true ⟨w1, v⟩ ⟨w2, v⟩ = 0)
    ∧ (∀ (dbg : DebugInfoM) (s : SnMaps) (w1 w2 v : Nat),
        (cmpValuesD true dbg (.constInt w1 v) (.constInt w2 v) s).1 = 0)
    ∧ (∀ s : SnMaps,
        (cmpValuesD false noDebugInfo (.constInt 8 3) (.constInt 32 3) s).1 ≠ 0)
    ∧ cmpTypesD false (.int 8) (.int 32) ≠ 0 := by
  have hA : ∀ w1 w2 v : Nat, cmpAPIntsD true ⟨w1, v⟩ ⟨w2, v⟩ = 0 := by
    intro w1 w2 v
    by_cases h : w1 = w2 <;>
      simp [cmpAPIntsD, cmpAPIntsBase, h, cmpNumbers_self]
  refine ⟨hA, ?_, ?_,
    by simp [cmpTypesD, cmpTypesBase, Ty.isIntegerTy, cmpNumbers]⟩
  · intro dbg s w1 w2 v
    by_cases h : w1 = w2
    · subst h
      simp [cmpValuesD_const_self]
    · rw [cmpValuesD_eq_core (by simp [Val.castOp?]) (by simp [Val.castOp?])]
      have hkey : (Val.constInt w1 v).key ≠ (Val.constInt w2 v).key := by
        simp [Val.key, h]
      simp [cmpValuesCore, cmpValuesBase, Val.isConstant, Val.key, h,
        cmpConstantsM, cmpTypesD_int_int, hA]
  · intro s
    rw [cmpValuesD_eq_core (by simp [Val.castOp?]) (by simp [Val.castOp?])]
    simp [cmpValuesCore, cmpValuesBase, Val.isConstant, Val.key,
      cmpConstantsM, cmpTypesD_int_int, noDebugInfo, cmpNumbers]

/-- C7: a pair of compile-time constants the baseline reports unequal
compares equal when the left constant's recorded originating-macro text
matches the textual form of the right constant. -/
theorem claim_C7_macro_value_tolerance (cfo : Bool) (dbg : DebugInfoM)
    (w1 v1 w2 v2 : Nat) (t : String) (s : SnMaps)
    (hbase : (cmpValuesBase cfo (.constInt w1 v1) (.constInt w2 v2) s).1 ≠ 0)
    (hmac : dbg.macroConstantMap (.constInt w1 v1) = some t)
    (htxt : dbg.valueAsString (.constInt w2 v2) = t) :
    (cmpValuesD cfo dbg (.constInt w1 v1) (.constInt w2 v2) s).1 = 0 := by
  rw [cmpValuesD_eq_core (by simp [Val.castOp?]) (by simp [Val.castOp?])]
  unfold cmpValuesCore
  rcases hb : cmpValuesBase cfo (.constInt w1 v1) (.constInt w2 v2) s with ⟨r, s1⟩
  rw [hb] at hbase
  have hr : r ≠ 0 := by simpa using hbase
  simp only [hb]
  simp [hr, Val.isConstant, hmac, htxt]

/-- C7 witness: constant 5 recorded under macro text "FLAG_X" against
constant 7 whose textual form is "FLAG_X" compares equal though 5 ≠ 7. -/
theorem claim_C7_witness :
    (cmpValuesD false dbgFlagX (.constInt 32 5) (.constInt 32 7) ⟨[], []⟩).1 = 0 :=
  claim_C7_macro_value_tolerance false dbgFlagX 32 5 32 7 "FLAG_X" ⟨[], []⟩
    (by simp [cmpValuesBase, Val.isConstant, Val.key, cmpConstantsM,
      cmpTypesD, cmpTypesBase, Ty.isIntegerTy, cmpAPIntsD, cmpAPIntsBase,
      cmpNumbers])
    rfl rfl

/-- C3: the block `[alloca x; store; ret]` against `[store; ret]` compares
equal under control-flow-only mode (the unmatched stack allocation is skipped
and the position retried) and unequal with the mode off. -/
theorem claim_C3_ignorable_skip :
    (cmpBasicBlocksD true noDebugInfo noLayout [allocaIns, storeInsL, retInsL]
      [storeInsR, retInsR] initState).map Prod.fst = some 0
    ∧ (cmpBasicBlocksD false noDebugInfo noLayout [allocaIns, storeInsL, retInsL]
      [storeInsR, retInsR] initState).map Prod.fst = some (-1) := by
  constructor <;>
    simp [cmpBasicBlocksD, cmpOperationsD, cmpOperationsBase, cmpValuesD,
      cmpValuesCore, cmpValuesBase, cmpTypesD, cmpTypesBase, Ty.isIntegerTy,
      Val.isConstant, Val.isBlockRef, Val.castOp?, Val.key, SnMap.insertGet,
      SnMap.find?, SnMap.size, SnMap.bracket, SnMap.eraseKey, repairBlockEntry,
      cmpNumbers, noDebugInfo, noLayout, initState, allocaIns, storeInsL,
      retInsL, storeInsR, retInsR, Instr.toVal, Instr.toCall, Instr.isCall,
      Instr.calleeOf, mayIgnore, Opcode.num, opResultTail, operandLoop,
      unsignedPred, natDist]

/-- C5 counterexample: the claim fails on the code.  Starting from serial
maps of one entry each (equal sizes — the state left by comparing the branch
successor pair `(L, R1)` of `br c, L, L` against `br c, R1, R2`), the value
comparator on the block pair `(L, R2)` finds `L` recorded as the last-added
entry of the left map while `R2` is fresh on the right; the repair erases
both the stale `L` entry and the fresh `R2` entry, returns equal, and leaves
the maps at sizes 0 and 1. -/
theorem claim_C5_counterexample :
    (SnMaps.mk [(.blockRef 0, 0)] [(.blockRef 1, 0)]).left.length =
      (SnMaps.mk [(.blockRef 0, 0)] [(.blockRef 1, 0)]).right.length
    ∧ (cmpValuesD false noDebugInfo (.block 0) (.block 2)
        ⟨[(.blockRef 0, 0)], [(.blockRef 1, 0)]⟩).1 = 0
    ∧ (cmpValuesD false noDebugInfo (.block 0) (.block 2)
        ⟨[(.blockRef 0, 0)], [(.blockRef 1, 0)]⟩).2.left.length = 0
    ∧ (cmpValuesD false noDebugInfo (.block 0) (.block 2)
        ⟨[(.blockRef 0, 0)], [(.blockRef 1, 0)]⟩).2.right.length = 1 := by
  refine ⟨rfl, ?_, ?_, ?_⟩ <;>
    simp [cmpValuesD, cmpValuesCore, cmpValuesBase, Val.isConstant,
      Val.isBlockRef, Val.castOp?, Val.key, SnMap.insertGet, SnMap.find?,
      SnMap.size, SnMap.bracket, SnMap.eraseKey, repairBlockEntry, cmpNumbers,
      noDebugInfo]

theorem SnMap.find?_append_of_none {m : SnMap} {k : ValKey} (x : Nat)
    (h : m.find? k = none) : SnMap.find? (m ++ [(k, x)]) k = some x := by
  induction m with
  | nil => simp [SnMap.find?]
  | cons p rest ih =>
      rw [SnMap.find?] at h
      rcases p with ⟨k', v⟩
      by_cases hk : k' = k
      · simp [hk] at h
      · simp only [List.cons_append, SnMap.find?, hk, if_false]
        exact ih (by simpa [hk] using h)

theorem SnMap.eraseKey_append_of_none {m : SnMap} {k : ValKey} (x : Nat)
    (h : m.find? k = none) : SnMap.eraseKey (m ++ [(k, x)]) k = m := by
  induction m with
  | nil => simp [SnMap.eraseKey]
  | cons p rest ih =>
      rw [SnMap.find?] at h
      rcases p with ⟨k', v⟩
      by_cases hk : k' = k
      · simp [hk] at h
      · simp only [List.cons_append, SnMap.eraseKey, hk, if_false, List.append_eq]
        rw [ih (by simpa [hk] using h)]

theorem cmpValuesCore_blocks (cfo : Bool) (dbg : DebugInfoM) (a b : Nat)
    (s : SnMaps) :
    cmpValuesCore cfo dbg (.block a) (.block b) s =
      (let kL := (s.left.insertGet (.blockRef a)).1
       let kR := (s.right.insertGet (.blockRef b)).1
       let s1 : SnMaps := ⟨(s.left.insertGet (.blockRef a)).2,
                           (s.right.insertGet (.blockRef b)).2⟩
       if cmpNumbers kL kR = 0 then (0, s1)
       else (0, repairBlockEntry (.block a) (.block b) s1)) := by
  unfold cmpValuesCore cmpValuesBase
  simp only [Val.isConstant, Val.isBlockRef, Val.key, Bool.and_self,
    Bool.false_and, Bool.and_false, ite_false, if_false, Bool.true_and]
  by_cases h :
      cmpNumbers (s.left.insertGet (.blockRef a)).1
        (s.right.insertGet (.blockRef b)).1 = 0
  · simp [h]
  · simp [h]

/-- C5 (amended): whenever the value comparator returns from a pair of
basic-block references whose operands are both fresh, or both recorded, or
one-sidedly recorded but not as the most-recently-added entry of its map, the
two serial-number maps have equal sizes again (given equal sizes and
well-formed serial numbers beforehand).  When exactly one side is recorded
and it is the most-recently-added entry of its map, the repair also removes
that entry and the sizes end up differing by one (the counterexample). -/
theorem claim_C5_amended_repair (cfo : Bool) (dbg : DebugInfoM) (a b : Nat)
    (s : SnMaps)
    (hlen : s.left.length = s.right.length)
    (hwfL : ∀ k v, s.left.find? k = some v → v < s.left.length)
    (hwfR : ∀ k v, s.right.find? k = some v → v < s.right.length)
    (hL : ¬(s.left.find? (.blockRef a) = some (s.left.length - 1) ∧
            s.right.find? (.blockRef b) = none))
    (hR : ¬(s.right.find? (.blockRef b) = some (s.right.length - 1) ∧
            s.left.find? (.blockRef a) = none)) :
    (cmpValuesD cfo dbg (.block a) (.block b) s).2.left.length =
    (cmpValuesD cfo dbg (.block a) (.block b) s).2.right.length := by
  rw [cmpValuesD_eq_core (by simp [Val.castOp?]) (by simp [Val.castOp?]),
    cmpValuesCore_blocks]
  rcases hfL : s.left.find? (.blockRef a) with _ | kL <;>
    rcases hfR : s.right.find? (.blockRef b) with _ | kR
  · -- both fresh: appended on both sides, serials are the (equal) lengths
    simp [SnMap.insertGet, hfL, hfR, hlen, cmpNumbers_self]
  · -- left fresh, right present: serial of the left is its map's length
    have hkR : kR < s.right.length := hwfR _ _ hfR
    have hne : cmpNumbers s.left.length kR ≠ 0 := by
      apply cmpNumbers_ne
      omega
    have hkRlast : kR ≠ s.right.length - 1 := by
      intro hcon
      exact hR ⟨by rw [hfR, hcon], hfL⟩
    simp only [SnMap.insertGet, hfL, hfR, hne, if_false, ite_false,
      repairBlockEntry, SnMap.size, SnMap.bracket, Val.key]
    rw [SnMap.find?_append_of_none (s.left.length) hfL]
    simp only [List.length_append, List.length_cons, List.length_nil]
    have hgrow : s.left.length + 1 ≠ s.right.length := by omega
    simp only [hgrow, if_true, ite_true, ne_eq, not_false_eq_true]
    rw [if_pos (by omega)]
    rw [SnMap.eraseKey_append_of_none _ hfL]
    simp [hfR, hkRlast, hlen]
  · -- left present, right fresh (the symmetric case)
    have hkL : kL < s.left.length := hwfL _ _ hfL
    have hne : cmpNumbers kL s.right.length ≠ 0 := by
      apply cmpNumbers_ne
      omega
    have hkLlast : kL ≠ s.left.length - 1 := by
      intro hcon
      exact hL ⟨by rw [hfL, hcon], hfR⟩
    simp only [SnMap.insertGet, hfL, hfR, hne, if_false, ite_false,
      repairBlockEntry, SnMap.size, SnMap.bracket, Val.key]
    rw [SnMap.find?_append_of_none (s.right.length) hfR]
    simp only [List.length_append, List.length_cons, List.length_nil]
    have hgrow : s.left.length ≠ s.right.length + 1 := by omega
    simp only [hgrow, if_true, ite_true, ne_eq, not_false_eq_true]
    rw [if_neg (by omega), if_pos (by omega)]
    rw [SnMap.eraseKey_append_of_none _ hfR]
    simp [hfL, hkLlast, hlen]
  · -- both present: the maps are untouched; on inequality the repair's size
    -- guard fails and nothing is erased
    by_cases h0 : cmpNumbers kL kR = 0 <;>
      simp [SnMap.insertGet, hfL, hfR, h0, repairBlockEntry, SnMap.size, hlen]

/-- C5 amended witness: two fresh block references from empty maps leave the
maps at equal sizes. -/
theorem claim_C5_amended_witness :
    (cmpValuesD false noDebugInfo (.block 0) (.block 1)
      ⟨[], []⟩).2.left.length =
    (cmpValuesD false noDebugInfo (.block 0) (.block 1)
      ⟨[], []⟩).2.right.length :=
  claim_C5_amended_repair false noDebugInfo 0 1 ⟨[], []⟩ rfl
    (fun k v h => by simp [SnMap.find?] at h)
    (fun k v h => by simp [SnMap.find?] at h)
    (by simp [SnMap.find?])
    (by simp [SnMap.find?])

/-- C6: the no-fault claim fails on the code.  At a memset pair whose
destinations both resolve to the named aggregate `s` but whose differing size
arguments include a runtime (non-constant) value, the comparator dereferences
the null result of `dyn_cast<ConstantInt>` inside
`cmpStructTypeSizeWithConstant` (the fault, `none` here); when instead a
destination fails to resolve, it degrades to "not equal" as claimed. -/
theorem claim_C6_memset_nonconstant_size_fault :
    (cmpMemsetD false noDebugInfo layT memsetCallL memsetCallR
      ⟨[], []⟩).isNone = true
    ∧ (cmpMemsetD false noDebugInfo layT memsetCallL' memsetCallR'
      ⟨[], []⟩).map Prod.fst = some 1 := by
  constructor <;>
    simp [cmpMemsetD, memsetArgLoop, CallInstM.getOperand,
      CallInstM.numArgOperands, resolveStructType, cmpStructTypeSizeWithConstant,
      Ty.structName, Val.valTy, cmpValuesD, cmpValuesCore, cmpValuesBase,
      Val.isConstant, Val.isBlockRef, Val.castOp?, Val.key, SnMap.insertGet,
      SnMap.find?, cmpNumbers, noDebugInfo, layT, memsetCallL, memsetCallR,
      memsetCallL', memsetCallR']

/-- C10: when exactly one compared instruction is a call, the operation
comparator dereferences the statically-resolved callee unguarded: for an
indirect call (no known callee) the embedding faults (`none`), on either
side; with a known callee the branch is total. -/
theorem claim_C10_one_sided_callee_deref :
    (∀ (cfo : Bool) (dbg : DebugInfoM) (layout : LayoutM) (L R : Instr)
       (st : CmpState), L.op = .call none → R.isCall = false →
       cmpOperationsD cfo dbg layout L R st = none)
    ∧ (∀ (cfo : Bool) (dbg : DebugInfoM) (layout : LayoutM) (L R : Instr)
       (st : CmpState), R.op = .call none → L.isCall = false →
       cmpOperationsD cfo dbg layout L R st = none)
    ∧ (∀ (cfo : Bool) (dbg : DebugInfoM) (layout : LayoutM) (L R : Instr)
       (st : CmpState) (f : CalleeM), L.op = .call (some f) → R.isCall = false →
       (cmpOperationsD cfo dbg layout L R st).isSome = true) := by
  refine ⟨?_, ?_, ?_⟩
  · intro cfo dbg layout L R st hL hR
    unfold Instr.isCall at hR
    unfold cmpOperationsD
    rcases hB : cmpOperationsBase cfo dbg L R st.maps with ⟨res, ntco, m0⟩
    simp [Instr.isCall, hL, hR, Instr.calleeOf]
  · intro cfo dbg layout L R st hRc hLc
    unfold Instr.isCall at hLc
    unfold cmpOperationsD
    rcases hB : cmpOperationsBase cfo dbg L R st.maps with ⟨res, ntco, m0⟩
    simp [Instr.isCall, hRc, hLc, Instr.calleeOf]
  · intro cfo dbg layout L R st f hL hR
    unfold Instr.isCall at hR
    have hc : L.calleeOf = some f := by simp [Instr.calleeOf, hL]
    unfold cmpOperationsD
    rcases hB : cmpOperationsBase cfo dbg L R st.maps with ⟨res, ntco, m0⟩
    simp only [Instr.isCall, hL, hR]
    simp [hc]

theorem Val.isConstant_iff {v : Val} :
    v.isConstant = true ↔ ∃ w n, v = .constInt w n := by
  cases v <;> simp [Val.isConstant]

/-- C2: for allocation calls whose size operands do not compare equal
directly, the calls compare equal iff both calls are immediately followed by
a bitcast to a pointer to an aggregate, both sizes are compile-time integer
constants, the two aggregates share one declared name, and each side's
constant equals the store size of its own aggregate. -/
theorem claim_C2_alloc_size_tolerance (cfo : Bool) (dbg : DebugInfoM)
    (layout : LayoutM) (cL cR : CallInstM) (s : SnMaps)
    (hne : (cmpValuesD cfo dbg (cL.getOperand 0) (cR.getOperand 0) s).1 ≠ 0) :
    ((cmpAllocsD cfo dbg layout cL cR s).map Prod.fst = some 0 ↔
      (isBitCastVal cL.next = true ∧ isBitCastVal cR.next = true ∧
       ∃ tyL tyR : Ty,
         cL.nextStructType = some tyL ∧ cR.nextStructType = some tyR ∧
         tyL.structName = tyR.structName ∧
         (∃ w1, cL.getOperand 0 = .constInt w1 (layout.storeSize tyL)) ∧
         (∃ w2, cR.getOperand 0 = .constInt w2 (layout.storeSize tyR)))) := by
  rcases hv : cmpValuesD cfo dbg (cL.getOperand 0) (cR.getOperand 0) s with ⟨r0, s0⟩
  rw [hv] at hne
  have hr0 : ¬(r0 = 0) := by simpa using hne
  constructor
  · intro h
    unfold cmpAllocsD at h
    rw [hv] at h
    simp only [hr0, if_false, ite_false] at h
    split at h
    · simp at h
    · split at h
      · simp at h
      · rename_i hbc hcst
        rw [not_not] at hbc hcst
        obtain ⟨w1, v1, hw1⟩ := Val.isConstant_iff.mp hcst.1
        obtain ⟨w2, v2, hw2⟩ := Val.isConstant_iff.mp hcst.2
        split at h
        · rename_i tyL tyR hSL hSR
          rw [hw1, hw2] at h
          simp only [cmpStructTypeSizeWithConstant, Option.bind_eq_bind,
            Option.some_bind] at h
          split at h
          · simp at h
          · split at h
            · simp at h
            · rename_i hc1 hc2
              have hz1 : v1 = layout.storeSize tyL := by
                by_cases hz : v1 = layout.storeSize tyL
                · exact hz
                · exact absurd (by simp [hz]) hc1
              have hz2 : v2 = layout.storeSize tyR := by
                by_cases hz : v2 = layout.storeSize tyR
                · exact hz
                · simp [hz] at h
              have hnm : tyL.structName = tyR.structName := by
                by_cases hn : tyL.structName = tyR.structName
                · exact hn
                · simp [hz2, hn] at h
              exact ⟨hbc.1, hbc.2, tyL, tyR, hSL, hSR, hnm,
                ⟨w1, by rw [hw1, hz1]⟩, ⟨w2, by rw [hw2, hz2]⟩⟩
        · simp at h
  · rintro ⟨hA, hB, tyL, tyR, hSL, hSR, hnm, ⟨w1, hw1⟩, w2, hw2⟩
    unfold cmpAllocsD
    rw [hv]
    simp only [hr0, if_false, ite_false]
    rw [if_neg (by simp [hA, hB]),
      if_neg (by simp [hw1, hw2, Val.isConstant]), hSL, hSR, hw1, hw2]
    simp [cmpStructTypeSizeWithConstant, hnm]

/-- C2 witness: constant sizes 24 and 32, both bitcast to a pointer to
aggregate `struct.T`, whose two versions store exactly 24 and 32 bytes,
compare equal. -/
theorem claim_C2_witness :
    (cmpAllocsD false noDebugInfo layT allocCallL allocCallR
      ⟨[], []⟩).map Prod.fst = some 0 :=
  (claim_C2_alloc_size_tolerance false noDebugInfo layT allocCallL allocCallR
    ⟨[], []⟩
    (by simp [cmpValuesD, cmpValuesCore, cmpValuesBase, Val.isConstant,
      Val.castOp?, Val.key, cmpConstantsM, cmpTypesD, cmpTypesBase,
      Ty.isIntegerTy, cmpAPIntsD, cmpAPIntsBase, cmpNumbers, noDebugInfo,
      allocCallL, allocCallR, CallInstM.getOperand])).mpr
    ⟨rfl, rfl, .struct "struct.T" [.int 8], .struct "struct.T" [.int 16],
      rfl, rfl, rfl, ⟨64, rfl⟩, ⟨64, rfl⟩⟩

theorem isZeroConst_isConstant {v : Val} (h : isZeroConst v = true) :
    v.isConstant = true := by
  cases v <;> simp [isZeroConst, Val.isConstant] at h ⊢

theorem extraArgLoop_eq_zero_iff (cfo : Bool) (dbg : DebugInfoM) :
    ∀ (ps : List (Val × Val)) (s : SnMaps),
      (extraArgLoop cfo dbg ps s).1 = 0 ↔ pairsTypeValEq cfo dbg ps s := by
  intro ps
  induction ps with
  | nil => intro s; simp [extraArgLoop, pairsTypeValEq]
  | cons p rest ih =>
      intro s
      rcases p with ⟨a, b⟩
      by_cases hrt : cmpTypesD cfo a.valTy b.valTy = 0
      · rcases hv : cmpValuesD cfo dbg a b s with ⟨rv, s1⟩
        by_cases hrv : rv = 0
        · simp [extraArgLoop, pairsTypeValEq, hrt, hv, hrv, ih]
        · simp [extraArgLoop, pairsTypeValEq, hrt, hv, hrv]
      · simp [extraArgLoop, pairsTypeValEq, hrt]

/-- C8: for calls handed to the extra-argument comparator with operand
counts differing by one, the calls compare equal iff the longer call's
penultimate operand is a compile-time constant zero/null, the result types
compare equal, and every argument pair short of the trailing
called-function slot compares equal by type and then by value; in
particular a non-constant or non-zero penultimate operand makes them
unequal. -/
theorem claim_C8_extra_arg_call (cfo : Bool) (dbg : DebugInfoM)
    (cL cR : CallInstM) (s : SnMaps)
    (hcnt : natDist cL.numOperands cR.numOperands = 1) :
    ((cmpCallsWithExtraArgD cfo dbg cL cR s).1 = 0 ↔
      (let ce := if cL.numOperands > cR.numOperands then cL else cR
       let co := if cL.numOperands > cR.numOperands then cR else cL
       isZeroConst (ce.getOperand (ce.numOperands - 2)) = true ∧
       cmpTypesD cfo ce.ty co.ty = 0 ∧
       pairsTypeValEq cfo dbg
         ((ce.operands.zip co.operands).take (co.numOperands - 1)) s)) := by
  unfold cmpCallsWithExtraArgD
  set ce := if cL.numOperands > cR.numOperands then cL else cR with hce
  set co := if cL.numOperands > cR.numOperands then cR else cL with hco
  set lastOp := ce.getOperand (ce.numOperands - 2) with hlast
  by_cases hc : lastOp.isConstant = true
  · by_cases hz : isZeroConst lastOp = true
    · by_cases hrt : cmpTypesD cfo ce.ty co.ty = 0
      · simp [hc, hz, hrt, extraArgLoop_eq_zero_iff]
      · simp [hc, hz, hrt]
    · simp [hc, hz]
  · have hz : ¬(isZeroConst lastOp = true) := fun h => hc (isZeroConst_isConstant h)
    simp [hc, hz]

/-- C8 witness: `f(a, b, false)` against `f(a, b)` compares equal. -/
theorem claim_C8_witness :
    (cmpCallsWithExtraArgD false noDebugInfo extraArgCall shorterCall
      ⟨[], []⟩).1 = 0 :=
  (claim_C8_extra_arg_call false noDebugInfo extraArgCall shorterCall
    ⟨[], []⟩ rfl).mpr
    (by refine ⟨rfl, ?_, ?_⟩ <;>
      simp [extraArgCall, shorterCall, pairsTypeValEq, CallInstM.numOperands,
        CallInstM.getOperand, Val.valTy, cmpTypesD, cmpTypesBase, Ty.isIntegerTy,
        cmpNumbers, cmpValuesD, cmpValuesCore, cmpValuesBase, Val.isConstant,
        Val.isBlockRef, Val.castOp?, Val.key, SnMap.insertGet, SnMap.find?,
        noDebugInfo])

theorem constIdxEq_iff {a b : Val} :
    constIdxEq a b = true ↔ ∃ w v, a = .constInt w v ∧ b = .constInt w v := by
  cases a <;> cases b <;> simp [constIdxEq]

theorem gepIdxLoop_of_ok (cfo : Bool) (dbg : DebugInfoM) (tL tR : Ty) :
    ∀ (restL restR accL accR : List Val) (s : SnMaps),
      gepIndicesOk dbg tL tR accL accR restL restR = true →
      gepIdxLoop cfo dbg tL tR accL accR restL restR s = (0, s) := by
  intro restL
  induction restL with
  | nil =>
      intro restR accL accR s hok
      cases restR with
      | nil => simp [gepIdxLoop]
      | cons iR restR => simp [gepIndicesOk] at hok
  | cons iL restL ih =>
      intro restR accL accR s hok
      cases restR with
      | nil => simp [gepIndicesOk] at hok
      | cons iR restR =>
          rw [gepIndicesOk, Bool.and_eq_true] at hok
          obtain ⟨hstep, hrest⟩ := hok
          rw [gepIdxLoop]
          split
          · rename_i nL fL nR fR heqL heqR
            rw [heqL, heqR] at hstep
            have hstep' :
                (match dbg.structFieldNames (.struct nL fL) (valToNat iL),
                       dbg.structFieldNames (.struct nR fR) (valToNat iR) with
                 | some a, some b => if a = b then true else constIdxEq iL iR
                 | _, _ => constIdxEq iL iR) = true := hstep
            by_cases hcond :
                (dbg.structFieldNames (.struct nL fL) (valToNat iL) = none ∨
                 dbg.structFieldNames (.struct nR fR) (valToNat iR) = none ∨
                 dbg.structFieldNames (.struct nL fL) (valToNat iL) ≠
                   dbg.structFieldNames (.struct nR fR) (valToNat iR))
            · have hci : constIdxEq iL iR = true := by
                rcases h1 : dbg.structFieldNames (.struct nL fL) (valToNat iL)
                    with _ | a <;>
                  rcases h2 : dbg.structFieldNames (.struct nR fR) (valToNat iR)
                    with _ | b <;>
                  rw [h1, h2] at hstep' <;> try simpa using hstep'
                rcases hcond with hc | hc | hc <;> simp [h1, h2] at hc
                simpa [hc] using hstep'
              obtain ⟨w, v, hL, hR⟩ := constIdxEq_iff.mp hci
              rw [if_pos hcond,
                show cmpValuesD cfo dbg iL iR s = (0, s) by
                  rw [hL, hR]; exact cmpValuesD_const_self _ _ _ _ _]
              exact ih _ _ _ _ hrest
            · rw [if_neg hcond]
              exact ih _ _ _ _ hrest
          · rename_i hns
            have hci : constIdxEq iL iR = true := by
              rcases hgl : getIndexedType tL accL with _ | vL <;>
                rcases hgr : getIndexedType tR accR with _ | vR <;>
                rw [hgl, hgr] at hstep
              · simpa using hstep
              · simpa using hstep
              · simpa using hstep
              · cases vL <;> cases vR <;>
                  first
                    | exact (hns _ _ _ _ hgl hgr).elim
                    | simpa using hstep
            obtain ⟨w, v, hL, hR⟩ := constIdxEq_iff.mp hci
            rw [show cmpValuesD cfo dbg iL iR s = (0, s) by
                  rw [hL, hR]; exact cmpValuesD_const_self _ _ _ _ _]
            exact ih _ _ _ _ hrest

theorem names_cond_of_not_exists {o1 o2 : Option String}
    (h : ¬∃ nm, o1 = some nm ∧ o2 = some nm) :
    o1 = none ∨ o2 = none ∨ o1 ≠ o2 := by
  cases o1 with
  | none => exact Or.inl rfl
  | some a =>
      cases o2 with
      | none => exact Or.inr (Or.inl rfl)
      | some b =>
          refine Or.inr (Or.inr ?_)
          intro he
          exact h ⟨b, he, rfl⟩

/-- C1: member-access chains into aggregates of one declared name with
all-constant indices compare equal whenever every index pair either resolves
to one field name or agrees positionally (first conjunct); when the field
names are unavailable or differ and the numeric indices differ, the
comparison is unequal (second conjunct). -/
theorem claim_C1_gep_field_name_tolerance :
    (∀ (cfo : Bool) (dbg : DebugInfoM) (orig : Int) (gL gR : GEPOp)
       (s : SnMaps),
       gL.srcElemTy.isStructTy = true → gR.srcElemTy.isStructTy = true →
       getStructTypeName gL.srcElemTy = getStructTypeName gR.srcElemTy →
       gL.addrSpace = gR.addrSpace →
       gL.indices.length = gR.indices.length →
       gL.hasAllConstantIndices = true → gR.hasAllConstantIndices = true →
       gL.isInst = true → gR.isInst = true →
       gepIndicesOk dbg gL.srcElemTy gR.srcElemTy [] [] gL.indices
         gR.indices = true →
       (cmpGEPsD cfo dbg orig gL gR s).1 = 0)
    ∧ (∀ (cfo : Bool) (dbg : DebugInfoM) (orig : Int) (s : SnMaps)
        (n : String) (fL fR : List Ty) (adsp w0 x0 w vL vR : Nat),
       orig ≠ 0 → vL ≠ vR →
       (¬∃ nm, dbg.structFieldNames (.struct n fL) vL = some nm ∧
               dbg.structFieldNames (.struct n fR) vR = some nm) →
       dbg.macroConstantMap (.constInt w vL) = none →
       (cmpGEPsD cfo dbg orig
         ⟨adsp, .struct n fL, [.constInt w0 x0, .constInt w vL], true⟩
         ⟨adsp, .struct n fR, [.constInt w0 x0, .constInt w vR], true⟩
         s).1 ≠ 0) := by
  constructor
  · intro cfo dbg orig gL gR s h1 h2 hnm haddr hlen hacL hacR hiL hiR hok
    by_cases horig : orig = 0
    · simp [cmpGEPsD, horig]
    · simp [cmpGEPsD, horig, h1, h2, hnm, haddr, hlen, hacL, hacR, hiL, hiR,
        cmpNumbers_self, gepIdxLoop_of_ok cfo dbg gL.srcElemTy gR.srcElemTy
          gL.indices gR.indices [] [] s hok]
  · intro cfo dbg orig s n fL fR adsp w0 x0 w vL vR horig hvv hnames hmac
    have hner : cmpConstantsM cfo (.constInt w vL) (.constInt w vR) ≠ 0 :=
      cmpConstantsM_same_width hvv
    have hcnd1 : dbg.structFieldNames (.struct n fL) vL = none ∨
        dbg.structFieldNames (.struct n fR) vR = none ∨
        dbg.structFieldNames (.struct n fL) vL ≠
          dbg.structFieldNames (.struct n fR) vR :=
      names_cond_of_not_exists hnames
    have hstep2 : ∀ s' : SnMaps,
        gepIdxLoop cfo dbg (.struct n fL) (.struct n fR)
          [.constInt w0 x0] [.constInt w0 x0]
          [.constInt w vL] [.constInt w vR] s' =
        (cmpConstantsM cfo (.constInt w vL) (.constInt w vR), s') := by
      intro s'
      rw [gepIdxLoop]
      simp only [getIndexedType, getIndexedType.walk, valToNat]
      rw [if_pos hcnd1, cmpValuesD_const_ne hvv hmac]
      simp [hner]
    have hstep1 :
        gepIdxLoop cfo dbg (.struct n fL) (.struct n fR) [] []
          [.constInt w0 x0, .constInt w vL] [.constInt w0 x0, .constInt w vR]
          s =
        (cmpConstantsM cfo (.constInt w vL) (.constInt w vR), s) := by
      rw [gepIdxLoop]
      simp only [getIndexedType, getIndexedType.walk, valToNat]
      by_cases h0 : (dbg.structFieldNames (.struct n fL) x0 = none ∨
          dbg.structFieldNames (.struct n fR) x0 = none ∨
          dbg.structFieldNames (.struct n fL) x0 ≠
            dbg.structFieldNames (.struct n fR) x0)
      · rw [if_pos h0, cmpValuesD_const_self]
        exact hstep2 s
      · rw [if_neg h0]
        exact hstep2 s
    simp [cmpGEPsD, horig, Ty.isStructTy, getStructTypeName, Ty.structName,
      cmpNumbers_self, GEPOp.hasAllConstantIndices, Val.isConstant, hstep1,
      hner]

/-- C1 witness: accessing field `fieldA` of aggregate `struct.S` at numeric
index 1 on the left and 2 on the right compares equal when debug info names
both `fieldA`, and unequal when names are unavailable. -/
theorem claim_C1_witness :
    (cmpGEPsD false dbgStructS 1 gepSLeft gepSRight ⟨[], []⟩).1 = 0
    ∧ (cmpGEPsD false noDebugInfo 1 gepSLeft gepSRight ⟨[], []⟩).1 ≠ 0 :=
  ⟨claim_C1_gep_field_name_tolerance.1 false dbgStructS 1 gepSLeft gepSRight
     ⟨[], []⟩ rfl rfl rfl rfl rfl rfl rfl rfl rfl
     (by simp [gepIndicesOk, getIndexedType, getIndexedType.walk, gepTypeAt,
       valToNat, dbgStructS, constIdxEq, gepSLeft, gepSRight, structSLeft,
       structSRight]),
   claim_C1_gep_field_name_tolerance.2 false noDebugInfo 1 ⟨[], []⟩
     "struct.S" [.int 32, .int 64, .int 8] [.int 32, .int 8, .int 64]
     0 32 0 32 1 2
     (by simp) (by simp) (by simp [noDebugInfo]) rfl⟩
